import Mathlib

/-!
Verification of the vectiqor streaming chat frontend
(`packages/vectiqor/frontend/src`): the stream decoder of `api/chat.ts`,
the turn controller of `hooks/useChat.ts`, the layout effects of
`components/layout/Sidebar.tsx`, and their collaborators.

Text is modelled as `List Char` (chunks arrive as already-decoded text;
all protocol payloads in scope are ASCII).  JavaScript runtime behaviour
(string methods, `JSON.parse`, truthiness) is embedded explicitly below.
-/

namespace Vq

/-- JavaScript whitespace characters relevant to `String.trim` /
`trimStart` on the protocol alphabet. -/
def wsChar (c : Char) : Bool :=
  c = ' ' || c = '\t' || c = '\n' || c = '\r' || c = '\x0b' || c = '\x0c'

/-- Embeds `s.trimStart()`. -/
def trimStartChars (s : List Char) : List Char :=
  s.dropWhile wsChar

/-- Embeds `s.trimEnd()`. -/
def trimEndChars (s : List Char) : List Char :=
  (s.reverse.dropWhile wsChar).reverse

/-- Embeds `s.trim()`. -/
def trimChars (s : List Char) : List Char :=
  trimStartChars (trimEndChars s)

/-- Embeds the pair of global replaces
`s.replace(/\r\n/g, '\n').replace(/\r/g, '\n')` from `api/chat.ts` /
`hooks/useChat.ts`: every CRLF pair collapses to one LF (the first replace
scans left to right over non-overlapping pairs), and every remaining CR
becomes LF.  The single left-to-right pass below computes exactly that
composition. -/
def normalizeNewlines : List Char → List Char
  | [] => []
  | '\r' :: '\n' :: rest => '\n' :: normalizeNewlines rest
  | '\r' :: rest => '\n' :: normalizeNewlines rest
  | c :: rest => c :: normalizeNewlines rest

/-- Embeds `block.split('\n')` (empty pieces preserved). -/
def splitNl : List Char → List (List Char)
  | [] => [[]]
  | '\n' :: rest => [] :: splitNl rest
  | c :: rest =>
    match splitNl rest with
    | [] => [[c]]
    | p :: ps => (c :: p) :: ps

/-- First occurrence of the two-LF record separator:
`buffer.indexOf` of the blank line, split into the part before and the
part after the separator. -/
def findBoundary : List Char → Option (List Char × List Char)
  | [] => none
  | '\n' :: '\n' :: rest => some ([], rest)
  | c :: rest => (findBoundary rest).map fun p => (c :: p.1, p.2)

/-- Embeds the inner `while (boundary !== -1)` loop of `sendMessageStream`:
repeatedly slice the buffer at the first blank line, collecting the blocks in
order and returning the unconsumed remainder.  Fuel-indexed; each step
removes at least the two separator characters, so `buffer.length` fuel is
always enough. -/
def extractBlocksAux : Nat → List Char → List (List Char) × List Char
  | 0, buf => ([], buf)
  | fuel + 1, buf =>
    match findBoundary buf with
    | none => ([], buf)
    | some (b, rest) =>
      let p := extractBlocksAux fuel rest
      (b :: p.1, p.2)

def extractBlocks (buf : List Char) : List (List Char) × List Char :=
  extractBlocksAux buf.length buf

/-- Embeds the `buffer.endsWith` check for a trailing blank line. -/
def endsWithBlank (buf : List Char) : Bool :=
  match buf.reverse with
  | '\n' :: '\n' :: _ => true
  | _ => false

/-! ### JSON values

Embeds the `JSON.parse` builtin on the JSON fragment the protocol uses
(objects, arrays, strings with the common escapes, integer numerals,
booleans, null).  A malformed payload parses to `none`, matching the
`catch { return }` in `processBlock`. -/

mutual

inductive Json where
  | null : Json
  | bool (b : Bool) : Json
  | num (n : Int) : Json
  | str (s : List Char) : Json
  | arr (xs : JsonList) : Json
  | obj (fields : JsonFields) : Json
deriving DecidableEq

inductive JsonList where
  | nil : JsonList
  | cons (hd : Json) (tl : JsonList) : JsonList
deriving DecidableEq

inductive JsonFields where
  | nil : JsonFields
  | cons (k : List Char) (v : Json) (tl : JsonFields) : JsonFields
deriving DecidableEq

end

/-- JavaScript truthiness of a JSON value. -/
def jsTruthy : Json → Bool
  | .null => false
  | .bool b => b
  | .num n => n != 0
  | .str s => s != []
  | .arr _ => true
  | .obj _ => true

/-- Lookup in object fields where a later duplicate key wins, as in
`JSON.parse`. -/
def fieldsFind : JsonFields → List Char → Option Json
  | .nil, _ => none
  | .cons k1 v tl, k =>
    match fieldsFind tl k with
    | some v2 => some v2
    | none => if k1 = k then some v else none

/-- Property access `obj.k` on a parsed JSON value; `none` is JavaScript
`undefined`. -/
def jsonField (j : Json) (k : List Char) : Option Json :=
  match j with
  | .obj fields => fieldsFind fields k
  | _ => none

def skipWs : List Char → List Char
  | [] => []
  | c :: rest => if wsChar c then skipWs rest else c :: rest

/-- One JSON string-escape character. -/
def unescape (c : Char) : Option Char :=
  if c = '"' then some '"'
  else if c = '\\' then some '\\'
  else if c = '/' then some '/'
  else if c = 'n' then some '\n'
  else if c = 't' then some '\t'
  else if c = 'r' then some '\r'
  else if c = 'b' then some '\x08'
  else if c = 'f' then some '\x0c'
  else none

/-- Body of a JSON string after the opening quote. -/
def parseStringBody : List Char → Option (List Char × List Char)
  | [] => none
  | '"' :: rest => some ([], rest)
  | '\\' :: e :: rest =>
    (unescape e).bind fun c =>
      (parseStringBody rest).map fun p => (c :: p.1, p.2)
  | c :: rest => (parseStringBody rest).map fun p => (c :: p.1, p.2)

def parseDigits : List Char → Option (Nat × List Char)
  | s =>
    let ds := s.takeWhile Char.isDigit
    if ds = [] then none
    else some (ds.foldl (fun acc c => acc * 10 + (c.toNat - 48)) 0, s.dropWhile Char.isDigit)

mutual

def parseVal : Nat → List Char → Option (Json × List Char)
  | 0, _ => none
  | fuel + 1, s =>
    match skipWs s with
    | [] => none
    | '"' :: rest => (parseStringBody rest).map fun p => (.str p.1, p.2)
    | '{' :: rest =>
      (match skipWs rest with
       | '}' :: r2 => some (.obj .nil, r2)
       | r1 => (parseMembers fuel r1).map fun p => (.obj p.1, p.2))
    | '[' :: rest =>
      (match skipWs rest with
       | ']' :: r2 => some (.arr .nil, r2)
       | r1 => (parseElems fuel r1).map fun p => (.arr p.1, p.2))
    | 't' :: 'r' :: 'u' :: 'e' :: rest => some (.bool true, rest)
    | 'f' :: 'a' :: 'l' :: 's' :: 'e' :: rest => some (.bool false, rest)
    | 'n' :: 'u' :: 'l' :: 'l' :: rest => some (.null, rest)
    | '-' :: rest => (parseDigits rest).map fun p => (.num (-(p.1 : Int)), p.2)
    | s1 => (parseDigits s1).map fun p => (.num (p.1 : Int), p.2)

def parseMembers : Nat → List Char → Option (JsonFields × List Char)
  | 0, _ => none
  | fuel + 1, s =>
    match skipWs s with
    | '"' :: rest =>
      (parseStringBody rest).bind fun kp =>
        match skipWs kp.2 with
        | ':' :: r2 =>
          (parseVal fuel r2).bind fun vp =>
            (match skipWs vp.2 with
             | ',' :: r3 => (parseMembers fuel r3).map fun mp => (.cons kp.1 vp.1 mp.1, mp.2)
             | '}' :: r3 => some (.cons kp.1 vp.1 .nil, r3)
             | _ => none)
        | _ => none
    | _ => none

def parseElems : Nat → List Char → Option (JsonList × List Char)
  | 0, _ => none
  | fuel + 1, s =>
    (parseVal fuel s).bind fun vp =>
      match skipWs vp.2 with
      | ',' :: r2 => (parseElems fuel r2).map fun ep => (.cons vp.1 ep.1, ep.2)
      | ']' :: r2 => some (.cons vp.1 .nil, r2)
      | _ => none

end

/-- Embeds `JSON.parse(text)` returning `none` on a parse error (including
trailing garbage). -/
def jsonParse (s : List Char) : Option Json :=
  match parseVal (s.length + 1) s with
  | some (v, rest) => if skipWs rest = [] then some v else none
  | none => none

/-! ### Stream decoder (`sendMessageStream` in `api/chat.ts`)

The decode loop reads chunks, appends them to a buffer, normalises
newlines, slices the buffer at every blank line, and runs `processBlock` on
each slice.  Callback invocations are recorded as `Event`s; the `throw`
raised by an `error` record (or by a JavaScript `TypeError` on a `null`
payload of a `token`/`error` record) aborts the whole loop. -/

/-- A callback invocation dispatched by `processBlock`:
`onStatus`, `onToken`, `onFinal`. -/
inductive Event where
  | status (payload : Json) : Event
  | token (text : Json) : Event
  | final (payload : Json) : Event
deriving DecidableEq

def Event.isFinalEv : Event → Bool
  | .final _ => true
  | _ => false

/-- An exception escaping `processBlock`: the explicit
`throw new Error` (detail or the default message) of an `error`
record, or the `TypeError` raised by reading `.text` / `.detail` off a
`null` payload. -/
inductive ThrownErr where
  | streamErr (detail : Json) : ThrownErr
  | typeErr : ThrownErr
deriving DecidableEq

/-- What `processBlock(block)` does: nothing, one callback, or a throw. -/
inductive Dispatch where
  | skip : Dispatch
  | status (payload : Json) : Dispatch
  | token (text : Json) : Dispatch
  | final (payload : Json) : Dispatch
  | throwErr (e : ThrownErr) : Dispatch
deriving DecidableEq

/-- Fold of the line loop in `processBlock`: the last `event:` line wins and
`data:` lines are collected in order. -/
def scanLines : List (List Char) → List Char → List (List Char) → List Char × List (List Char)
  | [], eventName, dataLines => (eventName, dataLines)
  | line :: rest, eventName, dataLines =>
    if (['e', 'v', 'e', 'n', 't', ':'] : List Char).isPrefixOf line then
      scanLines rest (trimChars (line.drop 6)) dataLines
    else if (['d', 'a', 't', 'a', ':'] : List Char).isPrefixOf line then
      scanLines rest eventName (dataLines ++ [trimStartChars (line.drop 5)])
    else
      scanLines rest eventName dataLines

/-- Embeds `processBlock` (`api/chat.ts` lines 105-138).  A `null` payload
reaches `tokenPayload.text` / `err.detail` as `null`, so those two branches
raise a `TypeError`; primitive payloads yield `undefined` there instead. -/
def processBlock (block : List Char) : Dispatch :=
  if trimChars block = [] then .skip
  else if block.head? = some ':' then .skip
  else
    let scanned := scanLines (splitNl block) ['m', 'e', 's', 's', 'a', 'g', 'e'] []
    let eventName := scanned.1
    let dataLines := scanned.2
    if dataLines = [] then .skip
    else
      match jsonParse (List.intercalate ['\n'] dataLines) with
      | none => .skip
      | some payload =>
        if eventName = ['s', 't', 'a', 't', 'u', 's'] then .status payload
        else if eventName = ['t', 'o', 'k', 'e', 'n'] then
          match payload with
          | .null => .throwErr .typeErr
          | _ =>
            match jsonField payload ['t', 'e', 'x', 't'] with
            | some t => if jsTruthy t then .token t else .skip
            | none => .skip
        else if eventName = ['f', 'i', 'n', 'a', 'l'] then .final payload
        else if eventName = ['e', 'r', 'r', 'o', 'r'] then
          match payload with
          | .null => .throwErr .typeErr
          | _ =>
            match jsonField payload ['d', 'e', 't', 'a', 'i', 'l'] with
            | some d =>
              if jsTruthy d then .throwErr (.streamErr d)
              else .throwErr (.streamErr (.str defaultStreamErrMsg))
            | none => .throwErr (.streamErr (.str defaultStreamErrMsg))
        else .skip
where
  defaultStreamErrMsg : List Char :=
    -- the default message text
    ['S', 't', 'r', 'e', 'a', 'm', 'i', 'n', 'g', ' ',
     'r', 'e', 'q', 'u', 'e', 's', 't', ' ', 'f', 'a', 'i', 'l', 'e', 'd']

/-- The mutable pair `(events dispatched so far, gotFinal)`. -/
structure DecState where
  events : List Event
  gotFinal : Bool
deriving DecidableEq

/-- Running one block: a throw carries the events already dispatched. -/
def stepBlock (st : DecState) (block : List Char) :
    Except (List Event × ThrownErr) DecState :=
  match processBlock block with
  | .skip => .ok st
  | .status p => .ok { st with events := st.events ++ [.status p] }
  | .token t => .ok { st with events := st.events ++ [.token t] }
  | .final p => .ok { events := st.events ++ [.final p], gotFinal := true }
  | .throwErr e => .error (st.events, e)

def stepBlocks (st : DecState) : List (List Char) →
    Except (List Event × ThrownErr) DecState
  | [] => .ok st
  | b :: rest =>
    match stepBlock st b with
    | .ok st2 => stepBlocks st2 rest
    | .error e => .error e

/-- Loop state between two `reader.read()` results. -/
structure LoopState where
  buffer : List Char
  dec : DecState
deriving DecidableEq

def initLoop : LoopState := { buffer := [], dec := { events := [], gotFinal := false } }

/-- One non-final `reader.read()` iteration: append the chunk, normalise
newlines over the whole buffer, slice off and process every complete
block. -/
def stepChunk (ls : LoopState) (chunk : List Char) :
    Except (List Event × ThrownErr) LoopState :=
  match stepBlocks ls.dec (extractBlocks (normalizeNewlines (ls.buffer ++ chunk))).1 with
  | .ok d => .ok { buffer := (extractBlocks (normalizeNewlines (ls.buffer ++ chunk))).2, dec := d }
  | .error e => .error e

def runChunks (ls : LoopState) : List (List Char) →
    Except (List Event × ThrownErr) LoopState
  | [] => .ok ls
  | c :: rest =>
    match stepChunk ls c with
    | .ok ls2 => runChunks ls2 rest
    | .error e => .error e

/-- How the decode loop as a whole ends. -/
inductive Outcome where
  | ok : Outcome
  | protocolViolation : Outcome
  | thrown (e : ThrownErr) : Outcome
deriving DecidableEq

/-- Synthesis of the missing trailing separator at end-of-input: a
non-empty partial record that does not already end in a blank line gets a
trailing blank line appended. -/
def eofBuffer (buf : List Char) : List Char :=
  if trimChars buf ≠ [] ∧ endsWithBlank buf = false then buf ++ ['\n', '\n'] else buf

/-- The `done` iteration: `decoder.decode()` flushes nothing for text
input; the flush rule of `eofBuffer` applies; then the remaining blocks
are processed and `if (!gotFinal) throw ...` checks for a terminal
event. -/
def finishEOF (ls : LoopState) : List Event × Outcome :=
  match stepBlocks ls.dec (extractBlocks (eofBuffer (normalizeNewlines ls.buffer))).1 with
  | .error e => (e.1, .thrown e.2)
  | .ok d => (d.events, if d.gotFinal then .ok else .protocolViolation)

/-- The full decode of a stream delivered as the given chunk sequence:
the ordered callback invocations and the outcome of the loop. -/
def decodeChunks (chunks : List (List Char)) : List Event × Outcome :=
  match runChunks initLoop chunks with
  | .error e => (e.1, .thrown e.2)
  | .ok ls => finishEOF ls

/-- The error surfaced to the caller of `sendMessageStream`. -/
inductive ChatErr where
  | timedOut : ChatErr
  | httpFailure (detail : List Char) : ChatErr
  | protocolViolation : ChatErr
  | streamFailure (detail : Json) : ChatErr
  | jsTypeError : ChatErr
deriving DecidableEq

/-- What the transport layer hands `sendMessageStream`. -/
inductive TransportInput where
  | abortError : TransportInput
  | httpError (detail : List Char) : TransportInput
  | okStream (chunks : List (List Char)) : TransportInput

/-- Embeds the control flow of `sendMessageStream` around the decode loop: an
`AbortError` from the aborted fetch is rewrapped as the timeout message, a
non-ok response throws its detail, and a successful response is decoded;
the `if (!gotFinal) throw` after the loop turns a terminal-free stream
into a protocol-violation error. -/
def sendMessageStreamModel : TransportInput → Except ChatErr (List Event)
  | .abortError => .error .timedOut
  | .httpError d => .error (.httpFailure d)
  | .okStream chunks =>
    match decodeChunks chunks with
    | (evs, .ok) => .ok evs
    | (_, .protocolViolation) => .error .protocolViolation
    | (_, .thrown (.streamErr d)) => .error (.streamFailure d)
    | (_, .thrown .typeErr) => .error .jsTypeError

/-! ### Chat turn controller (`hooks/useChat.ts`, streaming variant)

One question/answer turn: the `send` callback guarded by `isSending`, the
three stream callbacks, the `final` reconciliation, and the `catch` /
`finally` blocks. -/

inductive Role where
  | user : Role
  | assistant : Role
deriving DecidableEq

/-- The frontend `Message` record (`types/index.ts`).  Fields that the
controller merely copies out of the final payload are kept as raw JSON
values. -/
structure Message where
  role : Role
  content : List Char
  thinking_trace : Option (List Char) := none
  tool_calls : Option Json := none
  usage : Option Json := none
  model : Option Json := none
  tool_time : Option Json := none
  total_time : Option ℚ := none
deriving DecidableEq

/-- The state owned by the `useChat` hook. -/
structure ChatHookState where
  messages : List Message
  isSending : Bool
  statusMessage : Option Json
  streamingText : List Char
deriving DecidableEq

def userMessage (content : List Char) : Message :=
  { role := .user, content := content }

/-- Embeds `a || b` on JavaScript strings (an empty string is falsy). -/
def jsOrStr (a b : List Char) : List Char :=
  if a = [] then b else a

/-- Embeds the content computation of `useChat.onFinal`:
`(response.response || streamedText).replace(/\r\n/g,'\n').replace(/\r/g,'\n')`. -/
def finalContentOf (streamed resp : List Char) : List Char :=
  normalizeNewlines (jsOrStr resp streamed)

/-- Downward scan for `hay.lastIndexOf(pat)`: the largest start index
`i ≤ bound` at which `pat` occurs in `hay`. -/
def lastIndexFrom (hay pat : List Char) : Nat → Option Nat
  | 0 => if pat.isPrefixOf hay then some 0 else none
  | i + 1 =>
    if pat.isPrefixOf (hay.drop (i + 1)) then some (i + 1)
    else lastIndexFrom hay pat i

/-- Embeds `hay.lastIndexOf(pat)` (`none` for `-1`). -/
def lastIndexOfChars (hay pat : List Char) : Option Nat :=
  lastIndexFrom hay pat hay.length

/-- Embeds the thinking-trace computation of `useChat.onFinal`
(`hooks/useChat.ts` lines 208-217). -/
def thinkingTraceOf (streamed resp : List Char) : List Char :=
  let trimmedFinal := trimChars (finalContentOf streamed resp)
  if trimmedFinal = [] then trimChars streamed
  else
    match lastIndexOfChars streamed trimmedFinal with
    | some idx => if 0 < idx then trimChars (streamed.take idx) else []
    | none => []

/-- The `response.response` read of `onFinal`, with JavaScript coercion:
an absent / null / otherwise falsy field behaves like the empty string
(both make `response.response || streamedText` fall back). -/
def respTextOf (payload : Json) : List Char :=
  match jsonField payload ['r', 'e', 's', 'p', 'o', 'n', 's', 'e'] with
  | some (.str s) => s
  | _ => []

/-- The assistant `Message` composed by `onFinal` (lines 218-227). -/
def assistantFromFinal (streamed : List Char) (payload : Json) (wallTime : ℚ) : Message :=
  let respStr := respTextOf payload
  let trace := thinkingTraceOf streamed respStr
  { role := .assistant
    content := finalContentOf streamed respStr
    thinking_trace := if trace = [] then none else some trace
    tool_calls := jsonField payload ['t', 'o', 'o', 'l', '_', 'c', 'a', 'l', 'l', 's']
    usage := jsonField payload ['u', 's', 'a', 'g', 'e']
    model := (jsonField payload ['u', 's', 'a', 'g', 'e']).bind
      fun u => jsonField u ['m', 'o', 'd', 'e', 'l']
    tool_time := jsonField payload ['t', 'o', 'o', 'l', '_', 't', 'i', 'm', 'e']
    total_time := some wallTime }

/-- Effect of one dispatched stream event on `(hook state, streamedText)`,
embedding the `onStatus` / `onToken` / `onFinal` callbacks; `next` is the
captured `nextMessages` array.  A non-string `token` text would raise
calling `.replace` on it and is outside the modelled protocol. -/
def applyEvent (next : List Message) (wallTime : ℚ)
    (acc : ChatHookState × List Char) : Event → ChatHookState × List Char
  | .status p =>
    match jsonField p ['m', 'e', 's', 's', 'a', 'g', 'e'] with
    | some m =>
      if jsTruthy m then ({ acc.1 with statusMessage := some m }, acc.2) else acc
    | none => acc
  | .token t =>
    match t with
    | .str s =>
      let streamed := acc.2 ++ normalizeNewlines s
      ({ acc.1 with streamingText := streamed }, streamed)
    | _ => acc
  | .final p =>
    ({ acc.1 with
        statusMessage := none
        streamingText := []
        messages := next ++ [assistantFromFinal acc.2 p wallTime] }, acc.2)

def applyEvents (next : List Message) (wallTime : ℚ)
    (acc : ChatHookState × List Char) : List Event → ChatHookState × List Char
  | [] => acc
  | e :: rest => applyEvents next wallTime (applyEvent next wallTime acc e) rest

def thinkingStatus : Json :=
  .str ['T', 'h', 'i', 'n', 'k', 'i', 'n', 'g', '.', '.', '.']

/-- Content prefix of the inline error message appended by the `catch`
block: the fixed lead text followed by the message of the error. -/
def errLeadText : List Char :=
  ['I', ' ', 'c', 'o', 'u', 'l', 'd', 'n', '\'', 't', ' ', 'c', 'o', 'm', 'p',
   'l', 'e', 't', 'e', ' ', 't', 'h', 'a', 't', ' ', 'r', 'e', 'q', 'u', 'e',
   's', 't', '.', ' ']

def errorAssistant (errMsg : List Char) : Message :=
  { role := .assistant, content := errLeadText ++ errMsg }

/-- Embeds `useChat.send` (`hooks/useChat.ts` lines 172-253) for one turn.
`result` is what awaiting `sendMessageStream` produced: the ordered list
of dispatched events on normal return, or the message of the caught error.
Returns the final hook state and whether a request was started at all. -/
def sendModel (st : ChatHookState) (content : List Char) (wallTime : ℚ)
    (result : Except (List Char) (List Event)) : ChatHookState × Bool :=
  if st.isSending then (st, false)
  else
    let next := st.messages ++ [userMessage content]
    let entry : ChatHookState :=
      { messages := next, isSending := true,
        statusMessage := some thinkingStatus, streamingText := [] }
    match result with
    | .error errMsg =>
      -- catch: clear transient state, append the inline error message;
      -- finally: clear again and release the single-flight guard
      ({ messages := next ++ [errorAssistant errMsg], isSending := false,
         statusMessage := none, streamingText := [] }, true)
    | .ok events =>
      let settled := (applyEvents next wallTime (entry, []) events).1
      ({ settled with statusMessage := none, streamingText := [], isSending := false }, true)

/-! ### Layout effects (`components/layout/Sidebar.tsx`, `AppLayout`) -/

/-- Embeds `clearMessages` of the streaming `useChat`. -/
def clearMessagesModel (st : ChatHookState) : ChatHookState :=
  { st with messages := [], statusMessage := none, streamingText := [] }

/-- The conversation-scoped state the account-switch effect touches. -/
structure LayoutConvState where
  lastAccountRef : Option (List Char)
  chat : ChatHookState
  activeConversationId : Option (List Char)
  shareToken : Option (List Char)
deriving DecidableEq

/-- Embeds the account-switch effect (`AppLayout`, lines 117-126): the
guard `if (!accountId) return` tests JavaScript falsiness, so both a null
account id (a transient reading while the account list refetches) and the
empty-string id are ignored; an unchanged id is ignored via
`lastAccountIdRef`; otherwise the in-memory conversation state is
reset. -/
def accountSwitchEffect (st : LayoutConvState) (accountId : Option (List Char)) :
    LayoutConvState :=
  match accountId with
  | none => st
  | some a =>
    if a = [] then st
    else if st.lastAccountRef = some a then st
    else
      { lastAccountRef := some a
        chat := clearMessagesModel st.chat
        activeConversationId := none
        shareToken := none }

/-! ### Conversation auto-save (`AppLayout` + `useConversations`) -/

/-- The body the auto-save effect assembles for `saveConversation`
(name from the first user message, flattened tool calls), minus the
conversation id, which the effect fills in from the ref. -/
structure SaveDoc where
  name : List Char
  accountId : List Char
  model : List Char
  messages : List Message
  toolCalls : List Json

structure SaveReq where
  doc : SaveDoc
  conversationId : Option Nat

/-- Modelled from the spec: the persistence backend behind
`POST /conversations/save` is not under `src/` (only the frontend client
is); per the spec it upserts by the optional conversation id, creating a
new record with a fresh identifier and share token when none is given. -/
def setRecord : List (Nat × SaveReq) → Nat → SaveReq → List (Nat × SaveReq)
  | [], i, r => [(i, r)]
  | (j, old) :: rest, i, r =>
    if j = i then (i, r) :: rest else (j, old) :: setRecord rest i r

structure ConvStore where
  records : List (Nat × SaveReq)
  nextId : Nat

def shareTokenFor (i : Nat) : List Char :=
  't' :: Nat.toDigits 10 i

/-- Modelled from the spec: `POST /conversations/save` — upsert by
optional conversation id, returning `(conversation_id, share_token)`. -/
def upsertSave (store : ConvStore) (req : SaveReq) : (Nat × List Char) × ConvStore :=
  match req.conversationId with
  | some i =>
    ((i, shareTokenFor i), { store with records := setRecord store.records i req })
  | none =>
    ((store.nextId, shareTokenFor store.nextId),
     { records := setRecord store.records store.nextId req, nextId := store.nextId + 1 })

/-- The slice of `AppLayout` state driving the auto-save flow, plus the
persisted store and a log of `(conversation_id supplied, id returned)`
per save call. -/
structure SaveFlowState where
  activeConversationId : Option Nat
  idRef : Option Nat
  shareToken : Option (List Char)
  store : ConvStore
  saveLog : List (Option Nat × Nat)

/-- Embeds one run of the auto-save effect (`AppLayout` lines 129-149)
after a turn commits: the request carries
`conversationId: activeConversationIdRef.current` read at call time; the
`.then` stores the returned id and share token into state, and the
ref-sync effect (line 114) copies the id into the ref on the following
render, before any later auto-save can fire. -/
def autoSaveTurn (st : SaveFlowState) (doc : SaveDoc) : SaveFlowState :=
  let supplied := st.idRef
  let r := upsertSave st.store { doc := doc, conversationId := supplied }
  { activeConversationId := some r.1.1
    idRef := some r.1.1
    shareToken := some r.1.2
    store := r.2
    saveLog := st.saveLog ++ [(supplied, r.1.1)] }

def initSaveFlow : SaveFlowState :=
  { activeConversationId := none, idRef := none, shareToken := none,
    store := { records := [], nextId := 0 }, saveLog := [] }

/-! ### Secondary tool-output fetch -/

/-- Modelled from the spec: a tool call whose `output` may have been
omitted/truncated for transport size (`none` below); the code issuing the
secondary `GET /tool-outputs/request_id` fetch is not under `src/`. -/
structure SpecToolCall where
  name : List Char
  output : Option Json
deriving DecidableEq

structure SpecFinalResponse where
  responseText : List Char
  toolCalls : List SpecToolCall
  requestId : Option (List Char)
deriving DecidableEq

/-- Modelled from the spec: the secondary fetch is warranted when the
final response references tool calls whose outputs were omitted and a
request identifier is present. -/
def needsOutputFetch (r : SpecFinalResponse) : Bool :=
  (r.toolCalls.any fun tc => tc.output.isNone) && r.requestId.isSome

/-- Modelled from the spec: settle the tool calls of a turn, issuing exactly
one secondary fetch for complete outputs when warranted; a failed fetch
(`Except.error`) is non-fatal and keeps the truncated data; the text
response is never affected.  Returns `((tool calls, response text),
number of fetches issued)`. -/
def settleToolOutputs (r : SpecFinalResponse)
    (fetchResult : Except Unit (List SpecToolCall)) :
    (List SpecToolCall × List Char) × Nat :=
  if needsOutputFetch r then
    match fetchResult with
    | .ok full => ((full, r.responseText), 1)
    | .error _ => ((r.toolCalls, r.responseText), 1)
  else ((r.toolCalls, r.responseText), 0)

/-! ### Client-side request timeout (`api/chat.ts` lines 23-31) -/

/-- A JavaScript number as far as `Number.isFinite` can tell. -/
inductive JsNum where
  | finite (q : ℚ) : JsNum
  | nonFinite : JsNum
deriving DecidableEq

/-- Embeds `CHAT_REQUEST_TIMEOUT_MS = Number.isFinite(raw) ? raw : 560000`. -/
def chatRequestTimeoutMs : JsNum → ℚ
  | .finite q => q
  | .nonFinite => 560000

/-- Embeds `startAbortTimer`: no timer when the effective timeout is at
most zero, else an abort scheduled after that many milliseconds.  Both
`sendMessage` and `sendMessageStream` start this same timer. -/
def startAbortTimer (raw : JsNum) : Option ℚ :=
  if chatRequestTimeoutMs raw ≤ 0 then none else some (chatRequestTimeoutMs raw)

/-! ### Auxiliary predicates and concrete protocol inputs -/

/-- A `final` event was dispatched only as the very last event. -/
def noEventAfterFinal : List Event → Bool
  | [] => true
  | e :: rest => if e.isFinalEv then rest.isEmpty else noEventAfterFinal rest

/-- Whether the decode ended in the throw of a decoded `error` record. -/
def Outcome.isStreamThrow : Outcome → Bool
  | .thrown (.streamErr _) => true
  | _ => false

/-- The decoder state flag `gotFinal` is only ever set by dispatching a
`final` event. -/
def FinalFlagInv (d : DecState) : Prop :=
  d.gotFinal = true → ∃ p, Event.final p ∈ d.events

/-- A valid CRLF-terminated event stream: one `token` record, then one
`final` record. -/
def c1Full : List Char :=
  ("event: token\r\ndata: \x7b\"text\":\"a\"\x7d\r\n\r\nevent: final\r\ndata: \x7b\x7d\r\n\r\n").data

/-- The first chunk of a split of `c1Full` placed between the CR and the
LF of the first line terminator. -/
def c1Part1 : List Char := ("event: token\r").data

/-- The rest of `c1Full` after `c1Part1`. -/
def c1Part2 : List Char :=
  ("\ndata: \x7b\"text\":\"a\"\x7d\r\n\r\nevent: final\r\ndata: \x7b\x7d\r\n\r\n").data

/-- A stream whose `final` record is followed by a further `token`
record in the same chunk. -/
def c3FinalThenToken : List Char :=
  ("event: final\ndata: \x7b\x7d\n\nevent: token\ndata: \x7b\"text\":\"x\"\x7d\n\n").data

/-- A stream consisting of a single decoded `error` record. -/
def c3ErrChunk : List Char :=
  ("event: error\ndata: \x7b\"detail\":\"boom\"\x7d\n\n").data

/-- A later chunk carrying a `token` record. -/
def c3LaterChunk : List Char :=
  ("event: token\ndata: \x7b\"text\":\"y\"\x7d\n\n").data

/-- A stream that closes after a single `status` record, with no
terminal event. -/
def c4StatusChunk : List Char :=
  ("event: status\ndata: \x7b\"message\":\"hi\"\x7d\n\n").data

/-- A token buffer whose part before the final answer carries
surrounding whitespace. -/
def c2Buf : List Char := (" X B").data

/-- A server-declared response text carrying a CRLF. -/
def c2Resp : List Char := ("B\r\n").data

/-- A hook state with a send already in flight. -/
def c5State : ChatHookState :=
  { messages := [], isSending := true, statusMessage := none, streamingText := [] }

/-- An idle hook state with one message of prior history and a stale
streaming buffer. -/
def c6State : ChatHookState :=
  { messages := [userMessage ['q']], isSending := false,
    statusMessage := none, streamingText := ['z'] }

/-- A layout state with a loaded conversation under account `"a"`. -/
def c8State : LayoutConvState :=
  { lastAccountRef := some ['a']
    chat := { messages := [userMessage ['q']], isSending := false,
              statusMessage := none, streamingText := ['z'] }
    activeConversationId := some ['c']
    shareToken := some ['s'] }

/-- A final response referencing one tool call with omitted output and
carrying a request identifier. -/
def c9Resp : SpecFinalResponse :=
  { responseText := ['o', 'k']
    toolCalls := [{ name := ['t'], output := none }]
    requestId := some ['r'] }

/-! ## Theorems -/

/-- The chunk loop processes an appended chunk list by running the first
part and, unless it threw, continuing with the second. -/
theorem runChunks_append (a b : List (List Char)) (ls : LoopState) :
    runChunks ls (a ++ b) =
      match runChunks ls a with
      | .ok ls2 => runChunks ls2 b
      | .error e => .error e := by
  induction a generalizing ls with
  | nil => simp [runChunks]
  | cons c rest ih =>
    simp only [List.cons_append, runChunks]
    cases stepChunk ls c with
    | ok ls2 => simp [ih]
    | error e => simp

/-- C1: the decoder is NOT chunk-boundary invariant.  Splitting the valid
CRLF-terminated stream `c1Full` between the CR and LF of its first line
terminator makes the per-chunk newline normalisation turn the split CRLF
into two LFs, which fabricates a record boundary: the `token` event of the
first record is lost, while the unsplit delivery dispatches it. -/
theorem c1_crlf_split_changes_events :
    c1Part1 ++ c1Part2 = c1Full ∧
    (decodeChunks [c1Full]).1
      = [.token (.str ['a']), .final (.obj .nil)] ∧
    (decodeChunks [c1Part1, c1Part2]).1 = [.final (.obj .nil)] ∧
    decodeChunks [c1Part1, c1Part2] ≠ decodeChunks [c1Full] := by
  refine ⟨by decide, by decide, by decide, by decide⟩

/-- C3 counterexample: a `final` event does not stop the block loop — a
`token` record sitting after the `final` record in the same buffer is
still dispatched, so the dispatched sequence has an event after the
terminal `final`. -/
theorem c3_counterexample :
    (decodeChunks [c3FinalThenToken]).1
      = [.final (.obj .nil), .token (.str ['x'])] ∧
    noEventAfterFinal (decodeChunks [c3FinalThenToken]).1 = false := by
  refine ⟨by decide, by decide⟩

/-- C3 (amended): once the decode loop throws — in particular when an
`error` event is dispatched — decoding ends immediately: the output is
already determined, and record blocks remaining in the buffer or arriving
in any later chunks are never processed and dispatch nothing. -/
theorem c3_error_stops_decoding (c1 c2 : List (List Char)) (evs : List Event)
    (e : ThrownErr) (h : runChunks initLoop c1 = .error (evs, e)) :
    decodeChunks c1 = (evs, .thrown e) ∧
    decodeChunks (c1 ++ c2) = (evs, .thrown e) := by
  constructor
  · simp [decodeChunks, h]
  · simp [decodeChunks, runChunks_append, h]

/-- Witness for `c3_error_stops_decoding`: a decoded `error` record throws
with detail `"boom"`, and a later chunk carrying a `token` record changes
nothing. -/
theorem c3_error_stops_decoding_witness :
    runChunks initLoop [c3ErrChunk]
      = .error ([], .streamErr (.str ['b', 'o', 'o', 'm'])) ∧
    decodeChunks ([c3ErrChunk] ++ [c3LaterChunk])
      = ([], .thrown (.streamErr (.str ['b', 'o', 'o', 'm']))) :=
  ⟨rfl,
    (c3_error_stops_decoding [c3ErrChunk] [c3LaterChunk] []
      (.streamErr (.str ['b', 'o', 'o', 'm'])) rfl).2⟩

theorem stepBlock_inv {st st2 : DecState} {b : List Char}
    (h : FinalFlagInv st) (hs : stepBlock st b = .ok st2) : FinalFlagInv st2 := by
  unfold stepBlock at hs
  cases hp : processBlock b <;> rw [hp] at hs <;>
    simp only [Except.ok.injEq] at hs
  case skip => exact hs ▸ h
  case status p =>
    subst hs
    intro hg
    obtain ⟨q, hq⟩ := h hg
    exact ⟨q, by simp [hq]⟩
  case token t =>
    subst hs
    intro hg
    obtain ⟨q, hq⟩ := h hg
    exact ⟨q, by simp [hq]⟩
  case final p =>
    subst hs
    intro _
    exact ⟨p, by simp⟩
  case throwErr e => exact absurd hs (by simp)

theorem stepBlocks_inv : ∀ (bs : List (List Char)) {st st2 : DecState},
    FinalFlagInv st → stepBlocks st bs = .ok st2 → FinalFlagInv st2 := by
  intro bs
  induction bs with
  | nil =>
    intro st st2 h hs
    unfold stepBlocks at hs
    simp only [Except.ok.injEq] at hs
    exact hs ▸ h
  | cons b rest ih =>
    intro st st2 h hs
    unfold stepBlocks at hs
    cases hb : stepBlock st b <;> rw [hb] at hs
    case ok st1 => exact ih (stepBlock_inv h hb) hs
    case error e => exact absurd hs (by simp)

theorem stepChunk_inv {ls ls2 : LoopState} {c : List Char}
    (h : FinalFlagInv ls.dec) (hs : stepChunk ls c = .ok ls2) :
    FinalFlagInv ls2.dec := by
  unfold stepChunk at hs
  cases hb : stepBlocks ls.dec (extractBlocks (normalizeNewlines (ls.buffer ++ c))).1 <;>
    rw [hb] at hs
  case ok d =>
    simp only [Except.ok.injEq] at hs
    have h2 := stepBlocks_inv _ h hb
    rw [← hs]
    exact h2
  case error e => exact absurd hs (by simp)

theorem gotFinal_false_evs {evs : List Event} {d : DecState} {v : Outcome}
    (h : (d.events, if d.gotFinal then Outcome.ok else Outcome.protocolViolation)
      = (evs, v)) (hv : v = .ok) : d.events = evs ∧ d.gotFinal = true := by
  cases hg : d.gotFinal <;> rw [hg] at h <;> simp only [Prod.mk.injEq] at h
  · exact absurd (h.2.trans hv) (by simp)
  · exact ⟨h.1, rfl⟩

theorem runChunks_inv : ∀ (chunks : List (List Char)) {ls ls2 : LoopState},
    FinalFlagInv ls.dec → runChunks ls chunks = .ok ls2 → FinalFlagInv ls2.dec := by
  intro chunks
  induction chunks with
  | nil =>
    intro ls ls2 h hs
    unfold runChunks at hs
    simp only [Except.ok.injEq] at hs
    exact hs ▸ h
  | cons c rest ih =>
    intro ls ls2 h hs
    unfold runChunks at hs
    cases hc : stepChunk ls c <;> rw [hc] at hs
    case ok ls1 => exact ih (stepChunk_inv h hc) hs
    case error e => exact absurd hs (by simp)

/-- A decode that ends `ok` dispatched a `final` event: `gotFinal` is only
ever set by a `final` dispatch. -/
theorem decodeChunks_ok_final (chunks : List (List Char)) (evs : List Event)
    (h : decodeChunks chunks = (evs, .ok)) : ∃ p, Event.final p ∈ evs := by
  unfold decodeChunks at h
  cases hr : runChunks initLoop chunks <;> rw [hr] at h <;> dsimp only at h
  case error e => simp at h
  case ok ls =>
    have hinv : FinalFlagInv ls.dec :=
      runChunks_inv chunks (by intro hg; exact absurd hg (by simp [initLoop])) hr
    unfold finishEOF at h
    cases hb : stepBlocks ls.dec (extractBlocks (eofBuffer (normalizeNewlines ls.buffer))).1 <;>
      rw [hb] at h
    case error e => simp at h
    case ok d =>
      have hd := stepBlocks_inv _ hinv hb
      obtain ⟨h1, h2⟩ := gotFinal_false_evs h rfl
      obtain ⟨q, hq⟩ := hd h2
      exact ⟨q, h1 ▸ hq⟩

/-- C4: a stream whose decode dispatches no `final` event and does not
throw a decoded `error` never completes successfully: `sendMessageStream`
surfaces an error, and that error is distinct from the abort/timeout
rewrap and from an HTTP transport failure; when the loop itself flags the
missing terminal, the surfaced error is exactly the protocol violation. -/
theorem c4_missing_terminal_raises (chunks : List (List Char))
    (hf : ((decodeChunks chunks).1.all fun e => !e.isFinalEv) = true)
    (he : (decodeChunks chunks).2.isStreamThrow = false) :
    (∃ e, sendMessageStreamModel (.okStream chunks) = .error e ∧
      e ≠ .timedOut ∧ ∀ d, e ≠ .httpFailure d) ∧
    ((decodeChunks chunks).2 = .protocolViolation →
      sendMessageStreamModel (.okStream chunks) = .error .protocolViolation) := by
  cases hd : decodeChunks chunks with
  | mk evs out =>
    rw [hd] at hf he
    simp only at hf he
    cases out with
    | ok =>
      exfalso
      obtain ⟨p, hp⟩ := decodeChunks_ok_final chunks evs hd
      have := List.all_eq_true.mp hf _ hp
      simp [Event.isFinalEv] at this
    | protocolViolation =>
      refine ⟨⟨.protocolViolation, ?_, by simp, by simp⟩, fun _ => ?_⟩ <;>
        simp [sendMessageStreamModel, hd]
    | thrown e =>
      cases e with
      | streamErr d => simp [Outcome.isStreamThrow] at he
      | typeErr =>
        refine ⟨⟨.jsTypeError, ?_, by simp, by simp⟩, fun hcon => by cases hcon⟩
        simp [sendMessageStreamModel, hd]

/-- Witness for `c4_missing_terminal_raises`: a stream that closes after a
single `status` record surfaces exactly the protocol-violation error. -/
theorem c4_missing_terminal_raises_witness :
    ((decodeChunks [c4StatusChunk]).1.all fun e => !e.isFinalEv) = true ∧
    (decodeChunks [c4StatusChunk]).2 = .protocolViolation ∧
    sendMessageStreamModel (.okStream [c4StatusChunk]) = .error .protocolViolation :=
  ⟨by decide, by decide,
    (c4_missing_terminal_raises [c4StatusChunk] (by decide) (by decide)).2 (by decide)⟩

theorem isPrefixOf_nil_false {t : List Char} (h : t ≠ []) :
    t.isPrefixOf ([] : List Char) = false := by
  cases t with
  | nil => exact absurd rfl h
  | cons a as => rfl

/-- An occurrence start position never exceeds the haystack length. -/
theorem occurrence_le_length {hay t : List Char} {i : Nat} (ht : t ≠ [])
    (h : t.isPrefixOf (hay.drop i) = true) : i ≤ hay.length := by
  by_contra hlt
  push_neg at hlt
  rw [List.drop_eq_nil_of_le (le_of_lt hlt), isPrefixOf_nil_false ht] at h
  exact absurd h (by simp)

/-- A successful downward scan returns an occurrence that dominates every
occurrence within the bound. -/
theorem lastIndexFrom_some (hay t : List Char) :
    ∀ n i, lastIndexFrom hay t n = some i →
      t.isPrefixOf (hay.drop i) = true ∧ i ≤ n ∧
      ∀ j, j ≤ n → t.isPrefixOf (hay.drop j) = true → j ≤ i := by
  intro n
  induction n with
  | zero =>
    intro i h
    unfold lastIndexFrom at h
    cases hp : t.isPrefixOf hay <;> rw [hp] at h <;> simp at h
    subst h
    exact ⟨by simpa using hp, le_refl 0, fun j hj _ => hj⟩
  | succ n ih =>
    intro i h
    unfold lastIndexFrom at h
    cases hp : t.isPrefixOf (hay.drop (n + 1)) <;> rw [hp] at h <;> simp at h
    · obtain ⟨h1, h2, h3⟩ := ih i h
      refine ⟨h1, Nat.le_succ_of_le h2, fun j hj hpj => ?_⟩
      rcases Nat.lt_or_ge j (n + 1) with hlt | hge
      · exact h3 j (Nat.lt_succ_iff.mp hlt) hpj
      · have hje : j = n + 1 := le_antisymm hj hge
        rw [hje, hp] at hpj
        exact absurd hpj (by simp)
    · subst h
      exact ⟨hp, le_refl _, fun j hj _ => hj⟩

/-- A failed downward scan means there is no occurrence within the
bound. -/
theorem lastIndexFrom_none (hay t : List Char) :
    ∀ n, lastIndexFrom hay t n = none →
      ∀ j, j ≤ n → t.isPrefixOf (hay.drop j) = false := by
  intro n
  induction n with
  | zero =>
    intro h j hj
    unfold lastIndexFrom at h
    cases hp : t.isPrefixOf hay <;> rw [hp] at h <;> simp at h
    interval_cases j
    simpa using hp
  | succ n ih =>
    intro h j hj
    unfold lastIndexFrom at h
    cases hp : t.isPrefixOf (hay.drop (n + 1)) <;> rw [hp] at h <;> simp at h
    rcases Nat.lt_or_ge j (n + 1) with hlt | hge
    · exact ih h j (Nat.lt_succ_iff.mp hlt)
    · have hje : j = n + 1 := le_antisymm hj hge
      rw [hje]
      exact hp

/-- C2 (amended): the committed content is the server-declared response
text with newline variants normalised, falling back to the token buffer
when that text is empty; the thinking trace is the whitespace-trimmed
part of the buffer strictly before the last occurrence of the trimmed
canonical content, is the entire trimmed buffer when the canonical
content is empty, and is empty when the canonical content is non-empty
but occurs nowhere in the buffer or only at offset 0. -/
theorem c2_trace_characterization (streamed resp : List Char) :
    finalContentOf streamed resp
      = normalizeNewlines (if resp = [] then streamed else resp) ∧
    (trimChars (finalContentOf streamed resp) = [] →
      thinkingTraceOf streamed resp = trimChars streamed) ∧
    (∀ t, t = trimChars (finalContentOf streamed resp) → t ≠ [] →
      ((∀ i, 0 < i → t.isPrefixOf (streamed.drop i) = true →
          (∀ j, j ≤ streamed.length → t.isPrefixOf (streamed.drop j) = true → j ≤ i) →
          thinkingTraceOf streamed resp = trimChars (streamed.take i)) ∧
        ((∀ j, j ≤ streamed.length → t.isPrefixOf (streamed.drop j) = true → j = 0) →
          thinkingTraceOf streamed resp = []))) := by
  refine ⟨rfl, ?_, ?_⟩
  · intro h
    simp [thinkingTraceOf, h]
  · intro t ht htne
    subst ht
    have hne := htne
    constructor
    · intro i hi hpi hmax
      simp only [thinkingTraceOf, if_neg hne]
      rcases hli : lastIndexOfChars streamed (trimChars (finalContentOf streamed resp))
        with _ | idx
      · exact absurd hpi
          (by simp [lastIndexFrom_none streamed _ streamed.length hli i
            (occurrence_le_length hne hpi)])
      · obtain ⟨h1, h2, h3⟩ := lastIndexFrom_some streamed _ streamed.length idx hli
        have hii : i = idx :=
          le_antisymm (h3 i (occurrence_le_length hne hpi) hpi) (hmax idx h2 h1)
        dsimp only
        rw [← hii, if_pos hi]
    · intro honly
      simp only [thinkingTraceOf, if_neg hne]
      rcases hli : lastIndexOfChars streamed (trimChars (finalContentOf streamed resp))
        with _ | idx
      · rfl
      · obtain ⟨h1, h2, _⟩ := lastIndexFrom_some streamed _ streamed.length idx hli
        rw [honly idx h2 h1]
        rfl

/-- C2 counterexample: with buffer `" X B"` and server response text
`"B\r\n"`, the committed content is the normalised `"B\n"` rather than the
server-declared text verbatim, and the trace is the trimmed `"X"` rather
than everything strictly before the last occurrence (`" X "`, position
3). -/
theorem c2_counterexample :
    finalContentOf c2Buf c2Resp ≠ c2Resp ∧
    lastIndexOfChars c2Buf (trimChars (finalContentOf c2Buf c2Resp)) = some 3 ∧
    thinkingTraceOf c2Buf c2Resp = ['X'] ∧
    thinkingTraceOf c2Buf c2Resp ≠ c2Buf.take 3 := by
  refine ⟨by decide, by decide, by decide, by decide⟩

/-- Witness for `c2_trace_characterization` at the concrete buffer
`" X B"` and response `"B\r\n"`: position 3 is the dominant occurrence of
the trimmed content `"B"`, and the trace equals the trimmed prefix before
it. -/
theorem c2_trace_characterization_witness :
    (['B'] : List Char) = trimChars (finalContentOf c2Buf c2Resp) ∧
    thinkingTraceOf c2Buf c2Resp = trimChars (c2Buf.take 3) :=
  ⟨by decide,
    (((c2_trace_characterization c2Buf c2Resp).2.2 ['B'] (by decide) (by decide)).1
      3 (by decide) (by decide) (by decide))⟩

/-- C5: while a send is in flight, invoking `send` again leaves the whole
hook state untouched and starts no request — every turn keeps the
single-flight invariant. -/
theorem c5_inflight_send_is_noop (st : ChatHookState) (content : List Char)
    (w : ℚ) (result : Except (List Char) (List Event))
    (h : st.isSending = true) :
    sendModel st content w result = (st, false) := by
  simp [sendModel, h]

/-- Witness for `c5_inflight_send_is_noop` on a concrete in-flight
state. -/
theorem c5_inflight_send_is_noop_witness :
    c5State.isSending = true ∧
    sendModel c5State ['h', 'i'] 0 (.ok []) = (c5State, false) :=
  ⟨rfl, c5_inflight_send_is_noop c5State ['h', 'i'] 0 (.ok []) rfl⟩

/-- C6: a turn that fails (transport error, protocol violation or abort —
any caught error message) discards the streaming buffer and status,
appends exactly one assistant-role message carrying the failure
description after the user message appended at submit, and leaves all
prior history unchanged. -/
theorem c6_failure_appends_error (st : ChatHookState) (content errMsg : List Char)
    (w : ℚ) (h : st.isSending = false) :
    (sendModel st content w (.error errMsg)).1
      = { messages := st.messages ++ [userMessage content, errorAssistant errMsg],
          isSending := false, statusMessage := none, streamingText := [] } ∧
    (errorAssistant errMsg).role = .assistant ∧
    (errorAssistant errMsg).content = errLeadText ++ errMsg := by
  refine ⟨?_, rfl, rfl⟩
  simp [sendModel, h]

/-- Witness for `c6_failure_appends_error` on a concrete idle state and a
concrete failure. -/
theorem c6_failure_appends_error_witness :
    c6State.isSending = false ∧
    (sendModel c6State ['m'] 0 (.error ['b'])).1
      = { messages := c6State.messages ++ [userMessage ['m'], errorAssistant ['b']],
          isSending := false, statusMessage := none, streamingText := [] } :=
  ⟨rfl, (c6_failure_appends_error c6State ['m'] ['b'] 0 rfl).1⟩

theorem upsertSave_records (store : ConvStore) (req : SaveReq) :
    (upsertSave store req).2.records
      = setRecord store.records (upsertSave store req).1.1 req := by
  cases hc : req.conversationId <;> simp [upsertSave, hc]

theorem setRecord_key_mem (l : List (Nat × SaveReq)) (i : Nat) (r : SaveReq) :
    i ∈ (setRecord l i r).map Prod.fst := by
  induction l with
  | nil => simp [setRecord]
  | cons p rest ih =>
    obtain ⟨j, old⟩ := p
    by_cases hj : j = i
    · simp [setRecord, hj]
    · simp [setRecord, hj]
      exact Or.inr (by simpa using ih)

theorem setRecord_length_of_mem (l : List (Nat × SaveReq)) (i : Nat) (r : SaveReq)
    (h : i ∈ l.map Prod.fst) : (setRecord l i r).length = l.length := by
  induction l with
  | nil => simp at h
  | cons p rest ih =>
    obtain ⟨j, old⟩ := p
    by_cases hj : j = i
    · simp [setRecord, hj]
    · simp only [List.map_cons, List.mem_cons] at h
      rcases h with h | h

      · exact absurd h.symm hj
      · simp [setRecord, hj, ih h]

/-- C7: the auto-save of the second of two consecutive turns supplies the
conversation identifier returned by the first save — read from the ref
cell, which is current at save time — so the second save updates the same
record instead of creating another: from a fresh state two saves leave
exactly one persisted record. -/
theorem c7_consecutive_saves_share_one_record (st : SaveFlowState) (d1 d2 : SaveDoc) :
    (∃ i, (autoSaveTurn st d1).idRef = some i ∧
      (autoSaveTurn st d1).saveLog = st.saveLog ++ [(st.idRef, i)] ∧
      (autoSaveTurn (autoSaveTurn st d1) d2).saveLog
        = st.saveLog ++ [(st.idRef, i), (some i, i)] ∧
      (autoSaveTurn (autoSaveTurn st d1) d2).store.records.length
        = (autoSaveTurn st d1).store.records.length) ∧
    (autoSaveTurn (autoSaveTurn initSaveFlow d1) d2).store.records.length = 1 := by
  constructor
  · cases hr : st.idRef with
    | none =>
      refine ⟨st.store.nextId, ?_, ?_, ?_, ?_⟩
      · simp [autoSaveTurn, upsertSave, hr]
      · simp [autoSaveTurn, upsertSave, hr]
      · simp [autoSaveTurn, upsertSave, hr]
      · simp only [autoSaveTurn, upsertSave, hr]
        exact setRecord_length_of_mem _ _ _ (setRecord_key_mem _ _ _)
    | some j =>
      refine ⟨j, ?_, ?_, ?_, ?_⟩
      · simp [autoSaveTurn, upsertSave, hr]
      · simp [autoSaveTurn, upsertSave, hr]
      · simp [autoSaveTurn, upsertSave, hr]
      · simp only [autoSaveTurn, upsertSave, hr]
        exact setRecord_length_of_mem _ _ _ (setRecord_key_mem _ _ _)
  · simp [autoSaveTurn, upsertSave, initSaveFlow, setRecord]

/-- C8 counterexample: the empty-string account id is non-null and
different from the current account, yet `if (!accountId) return` treats
it as falsy and returns early — the loaded conversation state is left
fully intact, no reset happens. -/
theorem c8_counterexample :
    c8State.lastAccountRef ≠ some [] ∧
    accountSwitchEffect c8State (some []) = c8State ∧
    (accountSwitchEffect c8State (some [])).chat.messages ≠ [] := by
  refine ⟨by decide, rfl, by decide⟩

/-- C8 (amended): switching to a different non-empty account id resets
the in-memory conversation state — messages cleared, conversation
identifier and share token unset — whatever was loaded before, while a
transient falsy reading of the account id (null or the empty string)
during refetch changes nothing. -/
theorem c8_switch_resets (st : LayoutConvState) (a : List Char) :
    (a ≠ [] → st.lastAccountRef ≠ some a →
      accountSwitchEffect st (some a)
        = { lastAccountRef := some a
            chat := { messages := [], isSending := st.chat.isSending,
                      statusMessage := none, streamingText := [] }
            activeConversationId := none
            shareToken := none }) ∧
    accountSwitchEffect st none = st ∧
    accountSwitchEffect st (some []) = st := by
  refine ⟨?_, rfl, rfl⟩
  intro ha h
  simp [accountSwitchEffect, ha, h, clearMessagesModel]

/-- Witness for `c8_switch_resets`: switching from account `"a"` to the
non-empty account `"b"` with a conversation loaded. -/
theorem c8_switch_resets_witness :
    (['b'] : List Char) ≠ [] ∧
    c8State.lastAccountRef ≠ some ['b'] ∧
    accountSwitchEffect c8State (some ['b'])
      = { lastAccountRef := some ['b']
          chat := { messages := [], isSending := c8State.chat.isSending,
                    statusMessage := none, streamingText := [] }
          activeConversationId := none
          shareToken := none } :=
  ⟨by decide, by decide, (c8_switch_resets c8State ['b']).1 (by decide) (by decide)⟩

/-- C9: when the final response references tool calls with omitted
outputs and carries a request identifier, exactly one secondary fetch is
issued; a failed fetch keeps the truncated tool-call data, and the text
response is unaffected either way. -/
theorem c9_tool_output_fetch (r : SpecFinalResponse)
    (f : Except Unit (List SpecToolCall)) (h : needsOutputFetch r = true) :
    (settleToolOutputs r f).2 = 1 ∧
    (settleToolOutputs r f).1.2 = r.responseText ∧
    (f = .error () → (settleToolOutputs r f).1.1 = r.toolCalls) := by
  cases f <;> simp [settleToolOutputs, h]

/-- Witness for `c9_tool_output_fetch`: one truncated tool call, a
request id present, and a failing fetch. -/
theorem c9_tool_output_fetch_witness :
    needsOutputFetch c9Resp = true ∧
    (settleToolOutputs c9Resp (.error ())).2 = 1 ∧
    (settleToolOutputs c9Resp (.error ())).1.1 = c9Resp.toolCalls :=
  ⟨by decide, (c9_tool_output_fetch c9Resp (.error ()) (by decide)).1,
    (c9_tool_output_fetch c9Resp (.error ()) (by decide)).2.2 rfl⟩

/-- C10: a client-side abort is scheduled exactly when the effective
timeout is strictly positive, and then after exactly that many
milliseconds; a finite configured value of zero or less installs no
timer, and a non-finite configured value falls back to the 560000 ms
default. -/
theorem c10_timeout_policy (raw : JsNum) :
    (∀ t, startAbortTimer raw = some t ↔
      (0 < chatRequestTimeoutMs raw ∧ t = chatRequestTimeoutMs raw)) ∧
    (∀ q, raw = .finite q → 0 < q → startAbortTimer raw = some q) ∧
    (∀ q, raw = .finite q → q ≤ 0 → startAbortTimer raw = none) ∧
    (raw = .nonFinite → startAbortTimer raw = some 560000) := by
  refine ⟨?_, ?_, ?_, ?_⟩
  · intro t
    unfold startAbortTimer
    by_cases h : chatRequestTimeoutMs raw ≤ 0
    · simp [h]
    · rw [if_neg h]
      simp [not_le.mp h]
      exact eq_comm
  · intro q hq hq2
    subst hq
    simp only [startAbortTimer, chatRequestTimeoutMs]
    rw [if_neg (not_le.mpr hq2)]
  · intro q hq hq2
    subst hq
    simp only [startAbortTimer, chatRequestTimeoutMs]
    rw [if_pos hq2]
  · intro hq
    subst hq
    simp only [startAbortTimer, chatRequestTimeoutMs]
    norm_num

/-- Witness for `c10_timeout_policy` at a positive, a zero, a negative
and a non-finite configured value. -/
theorem c10_timeout_policy_witness :
    startAbortTimer (.finite 5) = some 5 ∧
    startAbortTimer (.finite 0) = none ∧
    startAbortTimer (.finite (-3)) = none ∧
    startAbortTimer .nonFinite = some 560000 :=
  ⟨(c10_timeout_policy (.finite 5)).2.1 5 rfl (by norm_num),
   (c10_timeout_policy (.finite 0)).2.2.1 0 rfl (by norm_num),
   (c10_timeout_policy (.finite (-3))).2.2.1 (-3) rfl (by norm_num),
   (c10_timeout_policy .nonFinite).2.2.2 rfl⟩

end Vq
